import Mathlib

/-
Verification of the wardrobe repository (layered dictionary).

The definitions below are a shallow embedding of the diff-based layered
dictionary of src/wardrobe/stackeddict.py.  A Python dict is modelled as an
association list (List (K × V)); a Python set of keys as a List K (no
duplicates on reachable states); the two parallel deques self._created and
self._overriden as two lists whose heads are the top layer.  Operations that
can raise in Python return an Except value together with the state the
object is left in (Python exceptions leave the object in whatever state the
method reached, so the state component is meaningful on the error path too).
-/

namespace Wardrobe

variable {K V : Type} [DecidableEq K]

/-- Lookup in an association list modelling a Python dict: the first pair
with a matching key wins. -/
def lookup : List (K × V) → K → Option V
  | [], _ => none
  | (k0, v0) :: t, k => if k = k0 then some v0 else lookup t k

/-- Membership test modelling Python `key in dict`. -/
def containsKey (d : List (K × V)) (k : K) : Bool :=
  (lookup d k).isSome

/-- Assignment modelling Python `dict[key] = value`: replace the binding in
place when the key is present, otherwise append a fresh binding. -/
def insert (d : List (K × V)) (k : K) (v : V) : List (K × V) :=
  if containsKey d k then
    d.map (fun p => if p.1 = k then (k, v) else p)
  else
    d ++ [(k, v)]

/-- Deletion modelling Python `del dict[key]` once the key is known to be
present: drop every binding of the key. -/
def erase (d : List (K × V)) (k : K) : List (K × V) :=
  d.filter (fun p => if p.1 = k then false else true)

/-- Modelling Python `set.add`: no duplicate is introduced. -/
def insertKey (c : List K) (k : K) : List K :=
  if k ∈ c then c else c ++ [k]

/-- Modelling Python `set.remove` on the membership-tested path: drop the
element. -/
def removeKey (c : List K) (k : K) : List K :=
  c.filter (fun x => if x = k then false else true)

/-- Modelling the loop `for key in keys: del dict[key]`: deletes keys in
order and stops at the first key absent from the dict
(there Python raises KeyError), reporting it. -/
def delKeys : List (K × V) → List K → List (K × V) × Option K
  | d, [] => (d, none)
  | d, k :: ks => if containsKey d k then delKeys (erase d k) ks else (d, some k)

/-- Modelling the loop `for key, value in pairs: dict[key] = value`. -/
def writePairs (d : List (K × V)) (pairs : List (K × V)) : List (K × V) :=
  pairs.foldl (fun acc p => insert acc p.1 p.2) d

/-- Python exceptions that the embedded methods can raise.
NoRevisionException is the error the spec calls NoOpenLayer. -/
inductive PyErr where
  | keyError
  | indexError
  | noRevisionException
deriving DecidableEq

/-- State of a wardrobe.stackeddict.StackedDict object:
`dict` is self._dict (the active mapping), `created` is the deque
self._created of per-layer created-key sets (head = top layer), `overriden`
is the deque self._overriden of per-layer backup dicts (head = top layer). -/
structure StackedDict (K V : Type) where
  dict : List (K × V)
  created : List (List K)
  overriden : List (List (K × V))
deriving DecidableEq

/-- StackedDict._has_layers: `bool(self._overriden)`. -/
def hasLayers (s : StackedDict K V) : Bool :=
  !s.overriden.isEmpty

/-- StackedDict.__getitem__: `return self._dict[key]`. -/
def getItem (s : StackedDict K V) (k : K) : Except PyErr V :=
  match lookup s.dict k with
  | some v => Except.ok v
  | none => Except.error PyErr.keyError

/-- StackedDict.has_key: `return self._dict.has_key(key)`. -/
def hasKey (s : StackedDict K V) (k : K) : Bool :=
  containsKey s.dict k

/-- StackedDict.__len__: `return len(self._dict)`. -/
def length (s : StackedDict K V) : Nat :=
  s.dict.length

/-- StackedDict.__setitem__.  With a layer open: a key absent from the
active dict is recorded in created[0]; a present key neither in created[0]
nor already backed up has its current value backed up into overriden[0];
in every case the active dict is then written.  The deque access
self._created[0] raises IndexError when the created deque is empty while
the overriden deque is not (unreachable in normal use). -/
def setItem (s : StackedDict K V) (k : K) (v : V) :
    StackedDict K V × Except PyErr Unit :=
  if hasLayers s then
    match s.created, s.overriden with
    | c :: ct, o :: ot =>
      match lookup s.dict k with
      | none =>
          ({ s with dict := insert s.dict k v, created := insertKey c k :: ct },
           Except.ok ())
      | some w =>
          if k ∈ c then
            ({ s with dict := insert s.dict k v }, Except.ok ())
          else if containsKey o k then
            ({ s with dict := insert s.dict k v }, Except.ok ())
          else
            ({ s with dict := insert s.dict k v, overriden := insert o k w :: ot },
             Except.ok ())
    | _, _ => (s, Except.error PyErr.indexError)
  else
    ({ s with dict := insert s.dict k v }, Except.ok ())

/-- StackedDict.__delitem__.  With a layer open it first tries
created[0].remove(key): on success the active dict is NOT touched (the key
stays visible).  Otherwise it does overriden[0][key] = self._dict.pop(key):
an unconditional backup assignment (overwriting any earlier backup), with
KeyError when the key is absent from the active dict.  With no layer open it
deletes from the active dict directly. -/
def delItem (s : StackedDict K V) (k : K) :
    StackedDict K V × Except PyErr Unit :=
  if hasLayers s then
    match s.created, s.overriden with
    | c :: ct, o :: ot =>
      if k ∈ c then
        ({ s with created := removeKey c k :: ct }, Except.ok ())
      else
        match lookup s.dict k with
        | some v =>
            ({ s with dict := erase s.dict k, overriden := insert o k v :: ot },
             Except.ok ())
        | none => (s, Except.error PyErr.keyError)
    | _, _ => (s, Except.error PyErr.indexError)
  else
    match lookup s.dict k with
    | some _ => ({ s with dict := erase s.dict k }, Except.ok ())
    | none => (s, Except.error PyErr.keyError)

/-- StackedDict.commit: appendleft a fresh empty set onto self._created and
a fresh empty dict onto self._overriden; the active dict is untouched.
(The Python method returns self; the returned object is the state itself.) -/
def commit (s : StackedDict K V) : StackedDict K V :=
  { s with created := [] :: s.created, overriden := [] :: s.overriden }

/-- StackedDict.reset: popleft both deques (IndexError on an empty deque
becomes NoRevisionException; the created deque is popped first, so when only
it is nonempty it is still popped before the error).  Then every created key
is deleted from the active dict (KeyError there propagates, leaving the keys
deleted so far), and every backed-up pair is written back.  The method
returns self, i.e. the resulting container itself. -/
def reset (s : StackedDict K V) :
    StackedDict K V × Except PyErr (StackedDict K V) :=
  match s.created, s.overriden with
  | [], _ => (s, Except.error PyErr.noRevisionException)
  | _ :: ct, [] =>
      ({ s with created := ct }, Except.error PyErr.noRevisionException)
  | c :: ct, o :: ot =>
      match delKeys s.dict c with
      | (d1, some _) =>
          ({ dict := d1, created := ct, overriden := ot }, Except.error PyErr.keyError)
      | (d1, none) =>
          let s2 : StackedDict K V := { dict := writePairs d1 o, created := ct, overriden := ot }
          (s2, Except.ok s2)

/-- StackedDict.clear.  With a layer open: delete every created key from the
active dict, reset created[0] to an empty set, delete every backed-up key
from the active dict (KeyError when such a key is absent, e.g. because it
was deleted earlier in the layer), then move every remaining active pair
into overriden[0].  With no layer open: empty the active dict. -/
def clear (s : StackedDict K V) : StackedDict K V × Except PyErr Unit :=
  if hasLayers s then
    match s.created, s.overriden with
    | c :: ct, o :: ot =>
      match delKeys s.dict c with
      | (d1, some _) => ({ s with dict := d1 }, Except.error PyErr.keyError)
      | (d1, none) =>
        match delKeys d1 (o.map Prod.fst) with
        | (d2, some _) =>
            ({ s with dict := d2, created := [] :: ct }, Except.error PyErr.keyError)
        | (d2, none) =>
            ({ s with dict := [], created := [] :: ct, overriden := writePairs o d2 :: ot },
             Except.ok ())
    | _, _ => (s, Except.error PyErr.indexError)
  else
    ({ s with dict := [] }, Except.ok ())

/-- One in-layer mutation: a set or a delete. -/
inductive Op (K V : Type) where
  | set (k : K) (v : V)
  | del (k : K)

/-- Apply one operation, keeping the state the object is left in (a raising
delete leaves the state unchanged, as in the source). -/
def applyOp (s : StackedDict K V) : Op K V → StackedDict K V
  | Op.set k v => (setItem s k v).1
  | Op.del k => (delItem s k).1

/-- Apply a sequence of operations in order. -/
def applyOps (s : StackedDict K V) (ops : List (Op K V)) : StackedDict K V :=
  ops.foldl applyOp s

/-- Apply a sequence of set operations (given as key-value pairs) in order. -/
def applySets (s : StackedDict K V) (ops : List (K × V)) : StackedDict K V :=
  ops.foldl (fun t p => (setItem t p.1 p.2).1) s

/-- Spec-following definition (for comparison with the source definition of
reset, which returns the container itself): the mapping of keys touched
during the top layer, each associated with the value it holds in the active
dict immediately before the rollback. -/
def resetDiffSpec (s : StackedDict K V) : List (K × V) :=
  ((s.created.headD []) ++ (s.overriden.headD []).map Prod.fst).filterMap
    (fun k => (lookup s.dict k).map (fun v => (k, v)))

/-- Keys never deleted within the layer may be set again freely: this
predicate holds of an operation sequence iff no set of a key follows a
delete of the same key (D accumulates the keys deleted so far). -/
def noSetOfDeleted (D : List K) : List (Op K V) → Bool
  | [] => true
  | Op.set k _ :: rest => if k ∈ D then false else noSetOfDeleted D rest
  | Op.del k :: rest => noSetOfDeleted (k :: D) rest

/-- Invariant of the top layer under in-layer set operations: d0 is the
active dict as of commit time, d the current active dict, c the top created
set and o the top backup dict.  Created keys were absent at commit time and
are present now; backed-up values are the commit-time values; untouched keys
still hold their commit-time binding. -/
def SetsInv (d0 d : List (K × V)) (c : List K) (o : List (K × V)) : Prop :=
  (∀ k, lookup d0 k ≠ none → lookup d k ≠ none) ∧
  (∀ k, k ∈ c → lookup d0 k = none ∧ lookup d k ≠ none) ∧
  (∀ k w, lookup o k = some w → lookup d0 k = some w) ∧
  (∀ k, k ∉ c → lookup o k = none → lookup d k = lookup d0 k) ∧
  c.Nodup ∧ (o.map Prod.fst).Nodup

/-- Invariant for the amended claim C3: the top created set and the top
backup dict stay disjoint, and every backed-up key is either still in the
active dict or among the keys D deleted so far within the layer. -/
def TopInv (d : List (K × V)) (c : List K) (o : List (K × V)) (D : List K) :
    Prop :=
  (∀ k, k ∈ c → lookup o k = none) ∧
  (∀ k, lookup o k ≠ none → lookup d k ≠ none ∨ k ∈ D)

/-- Stores of the per-layer set and dict objects, indexed by allocation
order, for the aliasing model of __copy__: a Python set or dict object is a
cell in the store, and a StackedDict holds references (indices) to cells. -/
structure World (K V : Type) where
  csets : List (List K)
  cmaps : List (List (K × V))
deriving DecidableEq

/-- A StackedDict object under the aliasing model: the active dict is held
by value (copy gives an independent top-level mapping), while the created
and overriden deques hold references into the World stores. -/
structure SDRef (K V : Type) where
  dict : List (K × V)
  created : List Nat
  overriden : List Nat
deriving DecidableEq

/-- StackedDict._has_layers under the aliasing model. -/
def hasLayersRef (r : SDRef K V) : Bool :=
  !r.overriden.isEmpty

/-- StackedDict.__copy__: copy(self._dict) yields an independently owned
top-level mapping, while copy(self._created) and copy(self._overriden)
yield fresh deques that hold the SAME cell references, so the per-layer
set and dict objects are shared with the original. -/
def copyRef (r : SDRef K V) : SDRef K V :=
  { dict := r.dict, created := r.created, overriden := r.overriden }

/-- StackedDict.commit under the aliasing model: appendleft allocates a
fresh empty set cell and a fresh empty dict cell and prepends their
references. -/
def commitRef (w : World K V) (r : SDRef K V) : World K V × SDRef K V :=
  (⟨w.csets ++ [[]], w.cmaps ++ [[]]⟩,
   ⟨r.dict, w.csets.length :: r.created, w.cmaps.length :: r.overriden⟩)

/-- StackedDict.__setitem__ under the aliasing model: bookkeeping reads and
writes go through the referenced cells of the World, so they are visible to
every object holding the same references. -/
def setItemRef (w : World K V) (r : SDRef K V) (k : K) (v : V) :
    (World K V × SDRef K V) × Except PyErr Unit :=
  if hasLayersRef r then
    match r.created, r.overriden with
    | ci :: _, oi :: _ =>
      match lookup r.dict k with
      | none =>
          ((⟨w.csets.set ci (insertKey (w.csets.getD ci []) k), w.cmaps⟩,
            { r with dict := insert r.dict k v }), Except.ok ())
      | some wv =>
          if k ∈ w.csets.getD ci [] then
            ((w, { r with dict := insert r.dict k v }), Except.ok ())
          else if containsKey (w.cmaps.getD oi []) k then
            ((w, { r with dict := insert r.dict k v }), Except.ok ())
          else
            ((⟨w.csets, w.cmaps.set oi (insert (w.cmaps.getD oi []) k wv)⟩,
              { r with dict := insert r.dict k v }), Except.ok ())
    | _, _ => ((w, r), Except.error PyErr.indexError)
  else
    ((w, { r with dict := insert r.dict k v }), Except.ok ())

/-- StackedDict.reset under the aliasing model: pops the reference deques
and replays the undo information read from the referenced cells. -/
def resetRef (w : World K V) (r : SDRef K V) :
    (World K V × SDRef K V) × Except PyErr (SDRef K V) :=
  match r.created, r.overriden with
  | [], _ => ((w, r), Except.error PyErr.noRevisionException)
  | _ :: ct, [] =>
      ((w, { r with created := ct }), Except.error PyErr.noRevisionException)
  | ci :: ct, oi :: ot =>
      match delKeys r.dict (w.csets.getD ci []) with
      | (d1, some _) =>
          ((w, { dict := d1, created := ct, overriden := ot }),
           Except.error PyErr.keyError)
      | (d1, none) =>
          let r2 : SDRef K V :=
            { dict := writePairs d1 (w.cmaps.getD oi []), created := ct, overriden := ot }
          ((w, r2), Except.ok r2)

end Wardrobe

deriving instance DecidableEq for Except

namespace Wardrobe

variable {K V : Type} [DecidableEq K]

theorem lookup_eq_none (d : List (K × V)) (k : K) :
    lookup d k = none ↔ k ∉ d.map Prod.fst := by
  induction d with
  | nil => simp [lookup]
  | cons p t ih =>
    obtain ⟨k0, v0⟩ := p
    by_cases h : k = k0
    · subst h
      simp [lookup]
    · simp [lookup, h, ih]

theorem containsKey_eq_false (d : List (K × V)) (k : K) :
    containsKey d k = false ↔ lookup d k = none := by
  unfold containsKey
  cases h : lookup d k <;> simp

theorem containsKey_eq_true (d : List (K × V)) (k : K) :
    containsKey d k = true ↔ lookup d k ≠ none := by
  unfold containsKey
  cases h : lookup d k <;> simp

theorem lookup_append (d1 d2 : List (K × V)) (k : K) :
    lookup (d1 ++ d2) k
      = match lookup d1 k with
        | some v => some v
        | none => lookup d2 k := by
  induction d1 with
  | nil => simp [lookup]
  | cons p t ih =>
    obtain ⟨k0, v0⟩ := p
    by_cases h : k = k0
    · subst h
      simp [lookup]
    · simp [lookup, h, ih]

theorem lookup_replace (d : List (K × V)) (k : K) (v : V) (q : K) :
    lookup (d.map fun p => if p.1 = k then (k, v) else p) q
      = if q = k then (if containsKey d k then some v else none)
        else lookup d q := by
  induction d with
  | nil => simp [lookup, containsKey]
  | cons p t ih =>
    obtain ⟨k0, v0⟩ := p
    have hck : containsKey ((k0, v0) :: t) k
        = if k = k0 then true else containsKey t k := by
      unfold containsKey
      by_cases h : k = k0 <;> simp [lookup, h]
    rw [List.map_cons]
    by_cases h0 : k0 = k
    · rw [show (if ((k0, v0) : K × V).1 = k then (k, v) else (k0, v0)) = (k, v)
          from by simp [h0]]
      rw [show lookup ((k, v) :: t.map fun p => if p.1 = k then (k, v) else p) q
            = (if q = k then some v
               else lookup (t.map fun p => if p.1 = k then (k, v) else p) q)
          from rfl]
      rw [ih, hck]
      subst h0
      by_cases hq : q = k0
      · simp [hq]
      · simp [hq, lookup]
    · rw [show (if ((k0, v0) : K × V).1 = k then (k, v) else (k0, v0)) = (k0, v0)
          from by simp [h0]]
      rw [show lookup ((k0, v0) :: t.map fun p => if p.1 = k then (k, v) else p) q
            = (if q = k0 then some v0
               else lookup (t.map fun p => if p.1 = k then (k, v) else p) q)
          from rfl]
      rw [ih, hck]
      have hkk0 : ¬(k = k0) := fun he => h0 he.symm
      by_cases hq : q = k0
      · have hqk : ¬(q = k) := fun he => hkk0 (he ▸ hq)
        simp [hq, hqk, hkk0, h0, lookup]
      · by_cases hqk : q = k
        · simp [hq, hqk, hkk0, lookup]
        · simp [hq, hqk, lookup]

theorem lookup_insert (d : List (K × V)) (k : K) (v : V) (q : K) :
    lookup (insert d k v) q = if q = k then some v else lookup d q := by
  unfold insert
  by_cases hc : containsKey d k
  · rw [if_pos hc, lookup_replace]
    simp [hc]
  · have hk : lookup d k = none := (containsKey_eq_false d k).mp (by simpa using hc)
    rw [if_neg hc, lookup_append]
    by_cases hq : q = k
    · subst hq
      rw [hk]
      simp [lookup]
    · cases h : lookup d q with
      | none => simp [lookup, hq]
      | some w => simp [hq]

theorem lookup_erase (d : List (K × V)) (k q : K) :
    lookup (erase d k) q = if q = k then none else lookup d q := by
  induction d with
  | nil => simp [erase, lookup]
  | cons p t ih =>
    obtain ⟨k0, v0⟩ := p
    by_cases h0 : k0 = k
    · subst h0
      have : erase ((k0, v0) :: t) k0 = erase t k0 := by
        simp [erase, List.filter_cons]
      rw [this, ih]
      by_cases hq : q = k0
      · simp [hq]
      · simp [hq, lookup]
    · have : erase ((k0, v0) :: t) k = (k0, v0) :: erase t k := by
        simp [erase, List.filter_cons, h0]
      rw [this]
      by_cases hq : q = k0
      · subst hq
        have hqk : q ≠ k := fun he => h0 (by simpa using he)
        simp [lookup, hqk]
      · simp [lookup, hq, ih]

theorem keys_insert (d : List (K × V)) (k : K) (v : V) :
    (insert d k v).map Prod.fst
      = if containsKey d k then d.map Prod.fst else d.map Prod.fst ++ [k] := by
  unfold insert
  by_cases hc : containsKey d k
  · rw [if_pos hc, if_pos hc, List.map_map]
    apply List.map_congr_left
    intro p _
    by_cases hp : p.1 = k
    · simp [Function.comp, hp]
    · simp [Function.comp, hp]
  · rw [if_neg hc, if_neg hc, List.map_append]
    rfl

theorem nodup_keys_insert (d : List (K × V)) (k : K) (v : V)
    (h : (d.map Prod.fst).Nodup) : ((insert d k v).map Prod.fst).Nodup := by
  rw [keys_insert]
  by_cases hc : containsKey d k
  · simpa [hc]
  · rw [if_neg hc]
    have hk : k ∉ d.map Prod.fst := (lookup_eq_none d k).mp
      ((containsKey_eq_false d k).mp (by simpa using hc))
    simp [List.nodup_append, h, hk]

theorem lookup_writePairs (d o : List (K × V)) (q : K)
    (h : (o.map Prod.fst).Nodup) :
    lookup (writePairs d o) q
      = match lookup o q with
        | some w => some w
        | none => lookup d q := by
  induction o generalizing d with
  | nil => simp [writePairs, lookup]
  | cons p t ih =>
    obtain ⟨k0, w0⟩ := p
    obtain ⟨hk0, hnd⟩ : k0 ∉ t.map Prod.fst ∧ (t.map Prod.fst).Nodup := by
      simpa using h
    have step : writePairs d ((k0, w0) :: t) = writePairs (insert d k0 w0) t := rfl
    rw [step, ih _ hnd]
    by_cases hq : q = k0
    · subst hq
      have ht : lookup t q = none := (lookup_eq_none t q).mpr hk0
      rw [ht]
      simp [lookup, lookup_insert]
    · cases ht : lookup t q with
      | some w => simp [lookup, hq, ht]
      | none => simp [lookup, hq, ht, lookup_insert]

theorem delKeys_spec (c : List K) : ∀ d : List (K × V),
    (∀ k, k ∈ c → lookup d k ≠ none) → c.Nodup →
    (delKeys d c).2 = none ∧
    (∀ q, lookup (delKeys d c).1 q = if q ∈ c then none else lookup d q) := by
  induction c with
  | nil =>
    intro d _ _
    exact ⟨rfl, fun q => by simp [delKeys]⟩
  | cons k ks ih =>
    intro d hall hnd
    have hk : lookup d k ≠ none := hall k (List.mem_cons_self k ks)
    have hck : containsKey d k = true := (containsKey_eq_true d k).mpr hk
    have hstep : delKeys d (k :: ks) = delKeys (erase d k) ks := by
      simp [delKeys, hck]
    obtain ⟨hknot, hksnd⟩ : k ∉ ks ∧ ks.Nodup := by simpa using hnd
    have hall2 : ∀ q, q ∈ ks → lookup (erase d k) q ≠ none := by
      intro q hq
      rw [lookup_erase]
      have hqk : q ≠ k := fun he => hknot (he ▸ hq)
      simpa [hqk] using hall q (List.mem_cons_of_mem _ hq)
    obtain ⟨h1, h2⟩ := ih (erase d k) hall2 hksnd
    refine ⟨by rw [hstep]; exact h1, ?_⟩
    intro q
    rw [hstep, h2 q]
    by_cases hqk : q = k
    · subst hqk
      simp [hknot, lookup_erase]
    · by_cases hqs : q ∈ ks
      · simp [hqs, hqk]
      · simp [hqs, hqk, lookup_erase]

theorem mem_insertKey (c : List K) (k q : K) :
    q ∈ insertKey c k ↔ q ∈ c ∨ q = k := by
  unfold insertKey
  by_cases h : k ∈ c
  · rw [if_pos h]
    constructor
    · exact Or.inl
    · rintro (hq | rfl)
      · exact hq
      · exact h
  · rw [if_neg h]
    simp

theorem nodup_insertKey (c : List K) (k : K) (h : c.Nodup) :
    (insertKey c k).Nodup := by
  unfold insertKey
  by_cases hk : k ∈ c
  · simpa [hk]
  · simp [hk, List.nodup_append, h]

theorem mem_removeKey (c : List K) (k q : K) :
    q ∈ removeKey c k ↔ q ∈ c ∧ q ≠ k := by
  simp only [removeKey, List.mem_filter]
  constructor
  · rintro ⟨h1, h2⟩
    refine ⟨h1, ?_⟩
    by_cases hq : q = k
    · simp [hq] at h2
    · exact hq
  · rintro ⟨h1, h2⟩
    exact ⟨h1, by simp [h2]⟩

/-- Reduction of __setitem__ with an open layer, branch: brand-new key. -/
theorem setItem_layers_new (d : List (K × V)) (c ct o ot) (k : K) (v : V)
    (hd : lookup d k = none) :
    (setItem (⟨d, c :: ct, o :: ot⟩ : StackedDict K V) k v).1
      = ⟨insert d k v, insertKey c k :: ct, o :: ot⟩ := by
  simp [setItem, hasLayers, hd]

/-- Reduction of __setitem__ with an open layer, branch: key already in
created[0]. -/
theorem setItem_layers_mem (d : List (K × V)) (c ct o ot) (k : K) (v w : V)
    (hd : lookup d k = some w) (hc : k ∈ c) :
    (setItem (⟨d, c :: ct, o :: ot⟩ : StackedDict K V) k v).1
      = ⟨insert d k v, c :: ct, o :: ot⟩ := by
  simp [setItem, hasLayers, hd, hc]

/-- Reduction of __setitem__ with an open layer, branch: pre-existing key
already backed up. -/
theorem setItem_layers_seen (d : List (K × V)) (c ct o ot) (k : K) (v w : V)
    (hd : lookup d k = some w) (hc : k ∉ c) (ho : containsKey o k = true) :
    (setItem (⟨d, c :: ct, o :: ot⟩ : StackedDict K V) k v).1
      = ⟨insert d k v, c :: ct, o :: ot⟩ := by
  simp [setItem, hasLayers, hd, hc, ho]

/-- Reduction of __setitem__ with an open layer, branch: first in-layer
write of a pre-existing key, which backs up its current value. -/
theorem setItem_layers_backup (d : List (K × V)) (c ct o ot) (k : K) (v w : V)
    (hd : lookup d k = some w) (hc : k ∉ c) (ho : containsKey o k = false) :
    (setItem (⟨d, c :: ct, o :: ot⟩ : StackedDict K V) k v).1
      = ⟨insert d k v, c :: ct, insert o k w :: ot⟩ := by
  simp [setItem, hasLayers, hd, hc, ho]

/-- Reduction of __delitem__ with an open layer, branch: key in created[0]
(the active dict is not touched). -/
theorem delItem_layers_created (d : List (K × V)) (c ct o ot) (k : K)
    (hc : k ∈ c) :
    (delItem (⟨d, c :: ct, o :: ot⟩ : StackedDict K V) k).1
      = ⟨d, removeKey c k :: ct, o :: ot⟩ := by
  simp [delItem, hasLayers, hc]

/-- Reduction of __delitem__ with an open layer, branch: key absent from
created[0] and present in the active dict (unconditional backup). -/
theorem delItem_layers_backup (d : List (K × V)) (c ct o ot) (k : K) (v : V)
    (hc : k ∉ c) (hd : lookup d k = some v) :
    (delItem (⟨d, c :: ct, o :: ot⟩ : StackedDict K V) k).1
      = ⟨erase d k, c :: ct, insert o k v :: ot⟩ := by
  simp [delItem, hasLayers, hc, hd]

/-- Reduction of __delitem__ with an open layer, branch: key absent
everywhere (KeyError, state unchanged). -/
theorem delItem_layers_missing (d : List (K × V)) (c ct o ot) (k : K)
    (hc : k ∉ c) (hd : lookup d k = none) :
    (delItem (⟨d, c :: ct, o :: ot⟩ : StackedDict K V) k).1
      = ⟨d, c :: ct, o :: ot⟩ := by
  simp [delItem, hasLayers, hc, hd]

theorem lookup_insert_pres (o : List (K × V)) (k : K) (w : V) (q : K)
    (h : lookup o q ≠ none) : lookup (insert o k w) q ≠ none := by
  rw [lookup_insert]
  by_cases hq : q = k
  · simp [hq]
  · simpa [hq] using h

theorem setsInv_init (d0 : List (K × V)) :
    SetsInv d0 d0 [] ([] : List (K × V)) := by
  refine ⟨fun _ h => h, ?_, ?_, fun _ _ _ => rfl, List.nodup_nil, by simp⟩
  · intro k hk
    exact absurd hk (List.not_mem_nil k)
  · intro k w h
    simp [lookup] at h

theorem setsInv_set_new (d0 d : List (K × V)) (c : List K) (o : List (K × V))
    (k : K) (v : V) (h : SetsInv d0 d c o) (hd : lookup d k = none) :
    SetsInv d0 (insert d k v) (insertKey c k) o := by
  obtain ⟨h0, h1, h2, h3, hcnd, hond⟩ := h
  refine ⟨?_, ?_, h2, ?_, nodup_insertKey c k hcnd, hond⟩
  · intro q hq
    exact lookup_insert_pres d k v q (h0 q hq)
  · intro q hq
    rcases (mem_insertKey c k q).mp hq with hqc | rfl
    · exact ⟨(h1 q hqc).1, lookup_insert_pres d k v q (h1 q hqc).2⟩
    · refine ⟨?_, ?_⟩
      · by_cases hd0 : lookup d0 q = none
        · exact hd0
        · exact absurd hd (h0 q hd0)
      · rw [lookup_insert]
        simp
  · intro q hqc hqo
    have hqk : q ≠ k := fun he => hqc ((mem_insertKey c k q).mpr (Or.inr he))
    have hqc2 : q ∉ c := fun hq2 => hqc ((mem_insertKey c k q).mpr (Or.inl hq2))
    rw [lookup_insert, if_neg hqk]
    exact h3 q hqc2 hqo

theorem setsInv_set_old (d0 d : List (K × V)) (c : List K) (o : List (K × V))
    (k : K) (v : V) (h : SetsInv d0 d c o)
    (hko : k ∈ c ∨ lookup o k ≠ none) :
    SetsInv d0 (insert d k v) c o := by
  obtain ⟨h0, h1, h2, h3, hcnd, hond⟩ := h
  refine ⟨?_, ?_, h2, ?_, hcnd, hond⟩
  · intro q hq
    exact lookup_insert_pres d k v q (h0 q hq)
  · intro q hq
    exact ⟨(h1 q hq).1, lookup_insert_pres d k v q (h1 q hq).2⟩
  · intro q hqc hqo
    have hqk : q ≠ k := by
      rintro rfl
      rcases hko with hk | hk
      · exact hqc hk
      · exact hk hqo
    rw [lookup_insert, if_neg hqk]
    exact h3 q hqc hqo

theorem setsInv_set_backup (d0 d : List (K × V)) (c : List K)
    (o : List (K × V)) (k : K) (v w : V) (h : SetsInv d0 d c o)
    (hd : lookup d k = some w) (hkc : k ∉ c) (hko : lookup o k = none) :
    SetsInv d0 (insert d k v) c (insert o k w) := by
  obtain ⟨h0, h1, h2, h3, hcnd, hond⟩ := h
  have hd0k : lookup d0 k = some w := by
    rw [← h3 k hkc hko]
    exact hd
  refine ⟨?_, ?_, ?_, ?_, hcnd, nodup_keys_insert o k w hond⟩
  · intro q hq
    exact lookup_insert_pres d k v q (h0 q hq)
  · intro q hq
    exact ⟨(h1 q hq).1, lookup_insert_pres d k v q (h1 q hq).2⟩
  · intro q w2 hq
    rw [lookup_insert] at hq
    by_cases hqk : q = k
    · rw [if_pos hqk] at hq
      subst hqk
      rw [hd0k, hq]
    · rw [if_neg hqk] at hq
      exact h2 q w2 hq
  · intro q hqc hqo
    rw [lookup_insert] at hqo
    by_cases hqk : q = k
    · rw [if_pos hqk] at hqo
      exact absurd hqo (by simp)
    · rw [if_neg hqk] at hqo
      rw [lookup_insert, if_neg hqk]
      exact h3 q hqc hqo

theorem setsInv_fold (d0 : List (K × V)) (ct : List (List K))
    (ot : List (List (K × V))) :
    ∀ (ops : List (K × V)) (d : List (K × V)) (c : List K) (o : List (K × V)),
    SetsInv d0 d c o →
    ∃ d1 c1 o1,
      applySets (⟨d, c :: ct, o :: ot⟩ : StackedDict K V) ops
        = ⟨d1, c1 :: ct, o1 :: ot⟩ ∧
      SetsInv d0 d1 c1 o1 ∧
      (∀ k, lookup o k ≠ none → lookup o1 k ≠ none) ∧
      (∀ k, lookup d0 k ≠ none → k ∈ ops.map Prod.fst → lookup o1 k ≠ none) := by
  intro ops
  induction ops with
  | nil =>
    intro d c o h
    exact ⟨d, c, o, rfl, h, fun _ hk => hk, fun k _ hm => absurd hm (by simp)⟩
  | cons p rest ih =>
    obtain ⟨k0, v0⟩ := p
    intro d c o h
    have hstep : applySets (⟨d, c :: ct, o :: ot⟩ : StackedDict K V) ((k0, v0) :: rest)
        = applySets ((setItem (⟨d, c :: ct, o :: ot⟩ : StackedDict K V) k0 v0).1) rest := rfl
    cases hd : lookup d k0 with
    | none =>
      obtain ⟨d1, c1, o1, heq, hinv, hmono, htrack⟩ :=
        ih (insert d k0 v0) (insertKey c k0) o (setsInv_set_new d0 d c o k0 v0 h hd)
      refine ⟨d1, c1, o1, ?_, hinv, hmono, ?_⟩
      · rw [hstep, setItem_layers_new d c ct o ot k0 v0 hd]
        exact heq
      · intro k hk0 hkm
        rcases (by simpa using hkm : k = k0 ∨ k ∈ rest.map Prod.fst) with rfl | hkm2
        · exact absurd hd (h.1 k hk0)
        · exact htrack k hk0 hkm2
    | some w =>
      by_cases hkc : k0 ∈ c
      · obtain ⟨d1, c1, o1, heq, hinv, hmono, htrack⟩ :=
          ih (insert d k0 v0) c o (setsInv_set_old d0 d c o k0 v0 h (Or.inl hkc))
        refine ⟨d1, c1, o1, ?_, hinv, hmono, ?_⟩
        · rw [hstep, setItem_layers_mem d c ct o ot k0 v0 w hd hkc]
          exact heq
        · intro k hk0 hkm
          rcases (by simpa using hkm : k = k0 ∨ k ∈ rest.map Prod.fst) with rfl | hkm2
          · exact absurd (h.2.1 k hkc).1 hk0
          · exact htrack k hk0 hkm2
      · cases hko : lookup o k0 with
        | some w2 =>
          have hct : containsKey o k0 = true := by simp [containsKey, hko]
          obtain ⟨d1, c1, o1, heq, hinv, hmono, htrack⟩ :=
            ih (insert d k0 v0) c o
              (setsInv_set_old d0 d c o k0 v0 h (Or.inr (by simp [hko])))
          refine ⟨d1, c1, o1, ?_, hinv, hmono, ?_⟩
          · rw [hstep, setItem_layers_seen d c ct o ot k0 v0 w hd hkc hct]
            exact heq
          · intro k hk0 hkm
            rcases (by simpa using hkm : k = k0 ∨ k ∈ rest.map Prod.fst) with rfl | hkm2
            · exact hmono k (by simp [hko])
            · exact htrack k hk0 hkm2
        | none =>
          have hcf : containsKey o k0 = false := (containsKey_eq_false o k0).mpr hko
          obtain ⟨d1, c1, o1, heq, hinv, hmono, htrack⟩ :=
            ih (insert d k0 v0) c (insert o k0 w)
              (setsInv_set_backup d0 d c o k0 v0 w h hd hkc hko)
          refine ⟨d1, c1, o1, ?_, hinv, ?_, ?_⟩
          · rw [hstep, setItem_layers_backup d c ct o ot k0 v0 w hd hkc hcf]
            exact heq
          · intro k hk
            exact hmono k (lookup_insert_pres o k0 w k hk)
          · intro k hk0 hkm
            rcases (by simpa using hkm : k = k0 ∨ k ∈ rest.map Prod.fst) with rfl | hkm2
            · refine hmono k ?_
              rw [lookup_insert]
              simp
            · exact htrack k hk0 hkm2

theorem reset_restores (d0 d : List (K × V)) (c : List K) (o : List (K × V))
    (ct : List (List K)) (ot : List (List (K × V))) (h : SetsInv d0 d c o) :
    ∀ q, lookup ((reset (⟨d, c :: ct, o :: ot⟩ : StackedDict K V)).1).dict q
      = lookup d0 q := by
  obtain ⟨h0, h1, h2, h3, hcnd, hond⟩ := h
  have hall : ∀ k, k ∈ c → lookup d k ≠ none := fun k hk => (h1 k hk).2
  obtain ⟨hdel2, hdel⟩ := delKeys_spec c d hall hcnd
  rcases hdk : delKeys d c with ⟨d1, e⟩
  have he : e = none := by
    rw [hdk] at hdel2
    exact hdel2
  subst he
  have hred : (reset (⟨d, c :: ct, o :: ot⟩ : StackedDict K V)).1
      = ⟨writePairs d1 o, ct, ot⟩ := by
    simp [reset, hdk]
  intro q
  rw [hred]
  rw [show (⟨writePairs d1 o, ct, ot⟩ : StackedDict K V).dict = writePairs d1 o from rfl]
  rw [lookup_writePairs d1 o q hond]
  cases hoq : lookup o q with
  | some w => exact (h2 q w hoq).symm
  | none =>
    have hd1 : lookup d1 q = if q ∈ c then none else lookup d q := by
      have hq := hdel q
      rw [hdk] at hq
      exact hq
    rw [hd1]
    by_cases hqc : q ∈ c
    · rw [if_pos hqc]
      exact ((h1 q hqc).1).symm
    · rw [if_neg hqc]
      exact h3 q hqc hoq

/-- Claim C6: for a key present before commit, the top backup mapping holds
the commit-time value after any sequence of in-layer set operations that
writes the key (no matter how often it is rewritten), and reset restores the
commit-time value of the key. -/
theorem C6_backup_once (d0 : List (K × V)) (ops : List (K × V)) (k : K)
    (v0 : V) (hk : lookup d0 k = some v0) (hmem : k ∈ ops.map Prod.fst) :
    lookup ((applySets (commit ⟨d0, [], []⟩) ops).overriden.headD []) k = some v0 ∧
    lookup ((reset (applySets (commit ⟨d0, [], []⟩) ops)).1).dict k = some v0 := by
  obtain ⟨d1, c1, o1, heq, hinv, hmono, htrack⟩ :=
    setsInv_fold d0 [] [] ops d0 [] [] (setsInv_init d0)
  have hcz : commit (⟨d0, [], []⟩ : StackedDict K V)
      = (⟨d0, [] :: [], [] :: []⟩ : StackedDict K V) := rfl
  rw [hcz, heq]
  have ho1 : lookup o1 k ≠ none := htrack k (by simp [hk]) hmem
  obtain ⟨w, hw⟩ : ∃ w, lookup o1 k = some w := by
    cases hq : lookup o1 k with
    | none => exact absurd hq ho1
    | some w => exact ⟨w, rfl⟩
  have hwv : w = v0 := by
    have := hinv.2.2.1 k w hw
    rw [hk] at this
    exact (Option.some.injEq _ _).mp this.symm
  subst hwv
  refine ⟨by simpa using hw, ?_⟩
  rw [reset_restores d0 d1 c1 o1 [] [] hinv k]
  exact hk

/-- Witness for C6: start with key 0 bound to 1, commit, set it to 2 then
to 3; the backup holds 1 and reset restores 1. -/
theorem C6_witness :
    lookup ((applySets (commit (⟨[(0, 1)], [], []⟩ : StackedDict Nat Nat))
        [(0, 2), (0, 3)]).overriden.headD []) 0 = some 1 ∧
    lookup ((reset (applySets (commit (⟨[(0, 1)], [], []⟩ : StackedDict Nat Nat))
        [(0, 2), (0, 3)])).1).dict 0 = some 1 :=
  C6_backup_once [(0, 1)] [(0, 2), (0, 3)] 0 1 rfl (by decide)

theorem topInv_weaken (d : List (K × V)) (c : List K) (o : List (K × V))
    (D : List K) (k : K) (h : TopInv d c o D) : TopInv d c o (k :: D) :=
  ⟨h.1, fun q hq => (h.2 q hq).imp id (List.mem_cons_of_mem k)⟩

theorem topInv_fold (ct : List (List K)) (ot : List (List (K × V))) :
    ∀ (ops : List (Op K V)) (d : List (K × V)) (c : List K)
      (o : List (K × V)) (D : List K),
    noSetOfDeleted D ops = true → TopInv d c o D →
    ∃ d1 c1 o1 D1,
      applyOps (⟨d, c :: ct, o :: ot⟩ : StackedDict K V) ops
        = ⟨d1, c1 :: ct, o1 :: ot⟩ ∧
      TopInv d1 c1 o1 D1 := by
  intro ops
  induction ops with
  | nil =>
    intro d c o D _ h
    exact ⟨d, c, o, D, rfl, h⟩
  | cons op rest ih =>
    intro d c o D hns h
    cases op with
    | set k v =>
      have hkD : k ∉ D := by
        by_cases hk : k ∈ D
        · rw [show noSetOfDeleted D (Op.set k v :: rest) = false
              from by simp [noSetOfDeleted, hk]] at hns
          exact absurd hns (by simp)
        · exact hk
      have hrest : noSetOfDeleted D rest = true := by
        rw [show noSetOfDeleted D (Op.set k v :: rest) = noSetOfDeleted D rest
            from by simp [noSetOfDeleted, hkD]] at hns
        exact hns
      have hstep : applyOps (⟨d, c :: ct, o :: ot⟩ : StackedDict K V)
            (Op.set k v :: rest)
          = applyOps ((setItem (⟨d, c :: ct, o :: ot⟩ : StackedDict K V) k v).1)
              rest := rfl
      cases hd : lookup d k with
      | none =>
        have hok : lookup o k = none := by
          cases hq : lookup o k with
          | none => rfl
          | some w =>
            rcases h.2 k (by simp [hq]) with hd2 | hD2
            · exact absurd hd hd2
            · exact absurd hD2 hkD
        have hinv : TopInv (insert d k v) (insertKey c k) o D := by
          constructor
          · intro q hq
            rcases (mem_insertKey c k q).mp hq with hqc | rfl
            · exact h.1 q hqc
            · exact hok
          · intro q hq
            exact (h.2 q hq).imp (lookup_insert_pres d k v q) id
        obtain ⟨d1, c1, o1, D1, heq, hinv1⟩ :=
          ih (insert d k v) (insertKey c k) o D hrest hinv
        refine ⟨d1, c1, o1, D1, ?_, hinv1⟩
        rw [hstep, setItem_layers_new d c ct o ot k v hd]
        exact heq
      | some w =>
        have hdictOnly : TopInv (insert d k v) c o D :=
          ⟨h.1, fun q hq => (h.2 q hq).imp (lookup_insert_pres d k v q) id⟩
        by_cases hkc : k ∈ c
        · obtain ⟨d1, c1, o1, D1, heq, hinv1⟩ :=
            ih (insert d k v) c o D hrest hdictOnly
          refine ⟨d1, c1, o1, D1, ?_, hinv1⟩
          rw [hstep, setItem_layers_mem d c ct o ot k v w hd hkc]
          exact heq
        · by_cases hko : containsKey o k = true
          · obtain ⟨d1, c1, o1, D1, heq, hinv1⟩ :=
              ih (insert d k v) c o D hrest hdictOnly
            refine ⟨d1, c1, o1, D1, ?_, hinv1⟩
            rw [hstep, setItem_layers_seen d c ct o ot k v w hd hkc hko]
            exact heq
          · have hkof : containsKey o k = false := by simpa using hko
            have hinv : TopInv (insert d k v) c (insert o k w) D := by
              constructor
              · intro q hqc
                have hqk : q ≠ k := fun he => hkc (he ▸ hqc)
                rw [lookup_insert, if_neg hqk]
                exact h.1 q hqc
              · intro q hq
                rw [lookup_insert] at hq
                by_cases hqk : q = k
                · subst hqk
                  refine Or.inl ?_
                  rw [lookup_insert, if_pos rfl]
                  simp
                · rw [if_neg hqk] at hq
                  exact (h.2 q hq).imp (lookup_insert_pres d k v q) id
            obtain ⟨d1, c1, o1, D1, heq, hinv1⟩ :=
              ih (insert d k v) c (insert o k w) D hrest hinv
            refine ⟨d1, c1, o1, D1, ?_, hinv1⟩
            rw [hstep, setItem_layers_backup d c ct o ot k v w hd hkc hkof]
            exact heq
    | del k =>
      have hrest : noSetOfDeleted (k :: D) rest = true := by
        simpa [noSetOfDeleted] using hns
      have hstep : applyOps (⟨d, c :: ct, o :: ot⟩ : StackedDict K V)
            (Op.del k :: rest)
          = applyOps ((delItem (⟨d, c :: ct, o :: ot⟩ : StackedDict K V) k).1)
              rest := rfl
      by_cases hkc : k ∈ c
      · have hinv : TopInv d (removeKey c k) o (k :: D) :=
          ⟨fun q hq => h.1 q ((mem_removeKey c k q).mp hq).1,
           (topInv_weaken d c o D k h).2⟩
        obtain ⟨d1, c1, o1, D1, heq, hinv1⟩ :=
          ih d (removeKey c k) o (k :: D) hrest hinv
        refine ⟨d1, c1, o1, D1, ?_, hinv1⟩
        rw [hstep, delItem_layers_created d c ct o ot k hkc]
        exact heq
      · cases hd : lookup d k with
        | some v =>
          have hinv : TopInv (erase d k) c (insert o k v) (k :: D) := by
            constructor
            · intro q hqc
              have hqk : q ≠ k := fun he => hkc (he ▸ hqc)
              rw [lookup_insert, if_neg hqk]
              exact h.1 q hqc
            · intro q hq
              rw [lookup_insert] at hq
              by_cases hqk : q = k
              · exact Or.inr (by simp [hqk])
              · rw [if_neg hqk] at hq
                rcases h.2 q hq with hd2 | hD2
                · refine Or.inl ?_
                  rw [lookup_erase, if_neg hqk]
                  exact hd2
                · exact Or.inr (List.mem_cons_of_mem k hD2)
          obtain ⟨d1, c1, o1, D1, heq, hinv1⟩ :=
            ih (erase d k) c (insert o k v) (k :: D) hrest hinv
          refine ⟨d1, c1, o1, D1, ?_, hinv1⟩
          rw [hstep, delItem_layers_backup d c ct o ot k v hkc hd]
          exact heq
        | none =>
          obtain ⟨d1, c1, o1, D1, heq, hinv1⟩ :=
            ih d c o (k :: D) hrest (topInv_weaken d c o D k h)
          refine ⟨d1, c1, o1, D1, ?_, hinv1⟩
          rw [hstep, delItem_layers_missing d c ct o ot k hkc hd]
          exact heq

/-- Claim C3 as amended: after a commit, over any interleaving of set and
delete operations in which no key is set after having been deleted in the
layer, no key lies simultaneously in the top created set and the top
overriden mapping.  (Without that restriction the invariant fails: deleting
a pre-existing key and then setting it again puts it in both.) -/
theorem C3_amended_no_overlap (d0 : List (K × V)) (ops : List (Op K V))
    (hns : noSetOfDeleted [] ops = true) (k : K)
    (hk : k ∈ (applyOps (commit ⟨d0, [], []⟩) ops).created.headD []) :
    lookup ((applyOps (commit ⟨d0, [], []⟩) ops).overriden.headD []) k
      = none := by
  obtain ⟨d1, c1, o1, D1, heq, hinv⟩ :=
    topInv_fold [] [] ops d0 [] [] [] hns
      ⟨fun q hq => absurd hq (List.not_mem_nil q), fun q hq => absurd rfl hq⟩
  have hcz : commit (⟨d0, [], []⟩ : StackedDict K V)
      = (⟨d0, [] :: [], [] :: []⟩ : StackedDict K V) := rfl
  rw [hcz, heq] at hk ⊢
  exact hinv.1 k (by simpa using hk)

/-- Witness for C3 as amended: a single in-layer set of a brand-new key
puts it in the created set and not in the overriden mapping. -/
theorem C3_amended_witness :
    lookup ((applyOps (commit (⟨[(0, 1)], [], []⟩ : StackedDict Nat Nat))
        [Op.set 5 9]).overriden.headD []) 5 = none :=
  C3_amended_no_overlap [(0, 1)] [Op.set 5 9] (by decide) 5 (by decide)

/-- Claim C1 (code bug): starting from the map with active mapping 0 to 1,
after commit, an in-layer set of key 0 to 2 and an in-layer delete of key 0,
reset leaves the active mapping with 0 bound to 2 instead of restoring the
pre-commit binding 0 to 1: __delitem__ overwrites the backup made by
__setitem__, so the rollback restores the in-layer value. -/
theorem C1_failing_reset_does_not_restore :
    lookup ((reset ((delItem ((setItem (commit
        (⟨[(0, 1)], [], []⟩ : StackedDict Nat Nat)) 0 2).1) 0).1)).1).dict 0
      = some 2 ∧
    lookup ([(0, 1)] : List (Nat × Nat)) 0 = some 1 :=
  ⟨rfl, rfl⟩

/-- Claim C2 (code bug): starting from the empty map, after commit,
set of key 1 to 5 and delete of key 1, the delete returns without error but
the key is still visible (has_key is true), and it is still visible after
reset: __delitem__ removes the key from created[0] but not from the active
dict. -/
theorem C2_delete_created_key_stays_visible :
    (delItem ((setItem (commit (⟨[], [], []⟩ : StackedDict Nat Nat)) 1 5).1) 1).2
      = Except.ok () ∧
    hasKey ((delItem ((setItem (commit
        (⟨[], [], []⟩ : StackedDict Nat Nat)) 1 5).1) 1).1) 1 = true ∧
    hasKey ((reset ((delItem ((setItem (commit
        (⟨[], [], []⟩ : StackedDict Nat Nat)) 1 5).1) 1).1)).1) 1 = true :=
  ⟨rfl, rfl, rfl⟩

/-- Claim C3 counterexample: starting from the map with key 0 bound to 1,
after commit, deleting key 0 and then setting key 0 to 2 leaves key 0
simultaneously in the top created set and in the top overriden mapping,
refuting the claimed invariant. -/
theorem C3_counterexample_created_overriden_overlap :
    0 ∈ (applyOps (commit (⟨[(0, 1)], [], []⟩ : StackedDict Nat Nat))
          [Op.del 0, Op.set 0 2]).created.headD [] ∧
    containsKey ((applyOps (commit (⟨[(0, 1)], [], []⟩ : StackedDict Nat Nat))
          [Op.del 0, Op.set 0 2]).overriden.headD []) 0 = true :=
  ⟨by decide, rfl⟩

/-- Claim C4 counterexample: starting from the map with key 0 bound to 1,
after commit and an in-layer set of key 0 to 2, reset returns the container
itself, whose active mapping binds 0 to the restored value 1, whereas the
claim says the return value is the diff mapping binding 0 to 2 (the value as
it stood right before rollback); the two disagree at key 0. -/
theorem C4_counterexample_reset_return_value :
    (reset ((setItem (commit (⟨[(0, 1)], [], []⟩ : StackedDict Nat Nat)) 0 2).1)).2
      = Except.ok ((reset ((setItem (commit
          (⟨[(0, 1)], [], []⟩ : StackedDict Nat Nat)) 0 2).1)).1) ∧
    lookup ((reset ((setItem (commit
        (⟨[(0, 1)], [], []⟩ : StackedDict Nat Nat)) 0 2).1)).1).dict 0 = some 1 ∧
    resetDiffSpec ((setItem (commit
        (⟨[(0, 1)], [], []⟩ : StackedDict Nat Nat)) 0 2).1) = [(0, 2)] ∧
    lookup ((reset ((setItem (commit
        (⟨[(0, 1)], [], []⟩ : StackedDict Nat Nat)) 0 2).1)).1).dict 0
      ≠ lookup (resetDiffSpec ((setItem (commit
          (⟨[(0, 1)], [], []⟩ : StackedDict Nat Nat)) 0 2).1)) 0 :=
  ⟨rfl, rfl, rfl, by decide⟩

/-- Claim C4 as amended: whenever reset succeeds, the value it returns is
the container itself (the state the map has been left in after the
rollback), not the mapping of the net changes of the popped layer. -/
theorem C4_amended_reset_returns_container (s r : StackedDict K V)
    (h : (reset s).2 = Except.ok r) :
    r = (reset s).1 := by
  obtain ⟨d, cr, ov⟩ := s
  cases cr with
  | nil => simp [reset] at h
  | cons c ct =>
    cases ov with
    | nil => simp [reset] at h
    | cons o ot =>
      rcases hd : delKeys d c with ⟨d1, e⟩
      cases e with
      | none =>
        simp [reset, hd] at h ⊢
        exact h.symm
      | some k => simp [reset, hd] at h

/-- Witness for C4 as amended at a concrete input. -/
theorem C4_amended_witness :
    (⟨[(0, 1)], [], []⟩ : StackedDict Nat Nat)
      = (reset (⟨[(0, 1)], [[]], [[]]⟩ : StackedDict Nat Nat)).1 :=
  C4_amended_reset_returns_container _ _ rfl

/-- Claim C5: calling reset on a map in the zero-layer state fails with
NoRevisionException (the error the spec calls NoOpenLayer) and leaves the
entire state exactly as it was: no partial mutation. -/
theorem C5_reset_zero_layers_fails_unchanged (s : StackedDict K V)
    (hc : s.created = []) (ho : s.overriden = []) :
    reset s = (s, Except.error PyErr.noRevisionException) := by
  obtain ⟨d, cr, ov⟩ := s
  cases cr with
  | cons c ct => simp at hc
  | nil =>
    cases ov with
    | cons o ot => simp at ho
    | nil => rfl

/-- Witness for C5 at a concrete input. -/
theorem C5_witness :
    reset (⟨[(0, 1)], [], []⟩ : StackedDict Nat Nat)
      = ((⟨[(0, 1)], [], []⟩ : StackedDict Nat Nat),
         Except.error PyErr.noRevisionException) :=
  C5_reset_zero_layers_fails_unchanged _ rfl rfl

/-- Claim C7 (code bug): starting from the map with keys 0 and 1, after
commit and an in-layer delete of key 0, clear raises KeyError (because it
tries to delete the backed-up key 0 from the active dict, where it is
absent) and leaves key 1 still visible, instead of emptying the visible
state undoably as the claim states. -/
theorem C7_clear_raises_after_in_layer_delete :
    (clear ((delItem (commit
        (⟨[(0, 1), (1, 2)], [], []⟩ : StackedDict Nat Nat)) 0).1)).2
      = Except.error PyErr.keyError ∧
    (clear ((delItem (commit
        (⟨[(0, 1), (1, 2)], [], []⟩ : StackedDict Nat Nat)) 0).1)).1.dict
      = [(1, 2)] :=
  ⟨rfl, rfl⟩

/-- Claim C9: getItem returns exactly the binding of the active dict (the
value when present, KeyError when absent), and its outcome depends only on
the active dict: two states with pointwise equal active dicts give the same
outcome for every key, no matter how their layer stacks differ. -/
theorem C9_get_reads_active_only (s1 s2 : StackedDict K V) (k : K)
    (h : ∀ q, lookup s1.dict q = lookup s2.dict q) :
    getItem s1 k = getItem s2 k ∧
    (∀ v, lookup s1.dict k = some v → getItem s1 k = Except.ok v) ∧
    (lookup s1.dict k = none → getItem s1 k = Except.error PyErr.keyError) := by
  refine ⟨?_, ?_, ?_⟩
  · unfold getItem
    rw [h k]
  · intro v hv
    unfold getItem
    rw [hv]
  · intro hv
    unfold getItem
    rw [hv]

/-- Witness for C9 at concrete inputs whose layer stacks differ. -/
theorem C9_witness :
    getItem (⟨[(0, 1)], [], []⟩ : StackedDict Nat Nat) 0
      = getItem (⟨[(0, 1)], [[3]], [[(4, 4)]]⟩ : StackedDict Nat Nat) 0 :=
  (C9_get_reads_active_only _ _ 0 (fun _ => rfl)).1

/-- Claim C10: commit never changes the visible state: the active dict is
pointwise unchanged, the length is unchanged, and the only change is one new
empty layer pushed on top of each bookkeeping deque. -/
theorem C10_commit_preserves_visible_state (s : StackedDict K V) :
    (∀ k, lookup (commit s).dict k = lookup s.dict k) ∧
    length (commit s) = length s ∧
    (commit s).created = [] :: s.created ∧
    (commit s).overriden = [] :: s.overriden :=
  ⟨fun _ => rfl, rfl, rfl, rfl⟩

/-- Claim C8 (code bug): start with key 0 bound to 1, commit, copy, and set
key 1 to 2 on the copy.  The set succeeds and the original still shows the
same active dict, but the created-set cell the original references went from
empty to containing key 1 (its bookkeeping was mutated through the copy,
because __copy__ shares the per-layer set and dict objects), and a
subsequent reset of the original raises KeyError. -/
theorem C8_copy_shares_layer_objects :
    (setItemRef (commitRef (⟨[], []⟩ : World Nat Nat) ⟨[(0, 1)], [], []⟩).1
        (copyRef (commitRef (⟨[], []⟩ : World Nat Nat) ⟨[(0, 1)], [], []⟩).2)
        1 2).2 = Except.ok () ∧
    (commitRef (⟨[], []⟩ : World Nat Nat) ⟨[(0, 1)], [], []⟩).2.dict
      = [(0, 1)] ∧
    ((commitRef (⟨[], []⟩ : World Nat Nat) ⟨[(0, 1)], [], []⟩).1.csets.getD 0 [])
      = [] ∧
    ((setItemRef (commitRef (⟨[], []⟩ : World Nat Nat) ⟨[(0, 1)], [], []⟩).1
        (copyRef (commitRef (⟨[], []⟩ : World Nat Nat) ⟨[(0, 1)], [], []⟩).2)
        1 2).1.1.csets.getD 0 []) = [1] ∧
    (resetRef
        (setItemRef (commitRef (⟨[], []⟩ : World Nat Nat) ⟨[(0, 1)], [], []⟩).1
          (copyRef (commitRef (⟨[], []⟩ : World Nat Nat) ⟨[(0, 1)], [], []⟩).2)
          1 2).1.1
        (commitRef (⟨[], []⟩ : World Nat Nat) ⟨[(0, 1)], [], []⟩).2).2
      = Except.error PyErr.keyError :=
  ⟨rfl, rfl, rfl, rfl, rfl⟩

end Wardrobe
